import Mathlib

/-!
Shallow embedding of the query-understanding and response-selection pipeline of
the `ai-assistant` voice bot (Python sources under `src/voice_bot/`).

Text is modelled as `List Char` (ASCII, which covers every configured keyword,
template and tested input); Python floats carrying only multiples of 0.5 are
modelled as `ℚ`; fallible Python code (KeyError / IndexError) returns `Except`;
the mutable recognizer / generator objects are modelled by explicit state
passing; `random.choice` is modelled by an explicit `rand : Nat` oracle and
the OpenAI completion call by an explicit `Except String String` outcome.
-/

namespace VoiceBot

/-! ## Character classes (ASCII model of the `re` module's classes) -/

/-- Executable model of Python's substring test `kw in t`: some prefix of a
suffix of `t` is `kw`. -/
def containsSub (kw t : List Char) : Bool :=
  (List.range (t.length + 1)).any (fun i => kw.isPrefixOf (t.drop i))

/-- ASCII model of the regex word-character class `\w` = `[A-Za-z0-9_]`. -/
def isWordChar (c : Char) : Bool := c.isAlphanum || c = '_'

/-- Whether position `i` of `t` holds a word character (`false` out of range). -/
def wordCharAt (t : List Char) (i : Nat) : Bool :=
  match t[i]? with
  | some c => isWordChar c
  | none => false

/-- The regex word-boundary assertion `\b` between positions `i-1` and `i` of `t`:
it holds exactly when one side is a word character and the other is not (a
position out of range counts as non-word). -/
def boundaryAt (t : List Char) (i : Nat) : Bool :=
  (if i = 0 then false else wordCharAt t (i - 1)) != wordCharAt t i

/-- Python `str.lower()` restricted to ASCII (all configured keywords and
templates are ASCII). -/
def pyLower (t : List Char) : List Char := t.map Char.toLower

/-- Truthiness of a Python optional string: `None` and `""` are falsy. -/
def pyStrTruthy : Option String → Bool
  | some s => !s.isEmpty
  | none => false

/-! ## Intent recognizer (`src/voice_bot/modules/intent_recognizer.py`) -/

/-- Embedding of `re.search(r'\b' + re.escape(keyword) + r'\b', text)` as a
decidable scan over all start positions: the escaped keyword is a literal, so a
match at `i` is exactly "keyword is a prefix of `t.drop i` with `\b` holding on
both sides". -/
def boundedMatchAt (kw t : List Char) (i : Nat) : Bool :=
  kw.isPrefixOf (t.drop i) && boundaryAt t i && boundaryAt t (i + kw.length)

/-- Whether `re.search(r'\b' + re.escape(kw) + r'\b', t)` finds a match. -/
def hasBoundedMatch (kw t : List Char) : Bool :=
  (List.range (t.length + 1)).any (boundedMatchAt kw t)

/-- `Config.INTENT_KEYWORDS` from `src/voice_bot/config/settings.py`; the
insertion-ordered Python dict is an association list. -/
def INTENT_KEYWORDS : List (String × List String) :=
  [("greeting", ["hello", "hi", "hey", "good morning", "good afternoon", "good evening"]),
   ("product_info", ["product", "item", "price", "cost", "available", "stock"]),
   ("order_status", ["order", "delivery", "shipping", "track", "status"]),
   ("account", ["account", "profile", "login", "password", "reset"]),
   ("support", ["help", "support", "issue", "problem", "complaint"]),
   ("farewell", ["bye", "goodbye", "thanks", "thank you", "exit", "quit"])]

/-- The per-intent scoring loop of `IntentRecognizer.recognize_intent`:
`score += 1.0` for each keyword occurring as a substring of the lowercased
text, plus `score += 0.5` when it additionally matches at word boundaries. -/
def intentScore (text_lower : List Char) (keywords : List String) : ℚ :=
  keywords.foldl
    (fun score keyword =>
      if containsSub keyword.data text_lower then
        let s := score + 1
        if hasBoundedMatch keyword.data text_lower then s + 1/2 else s
      else score)
    0

/-- Python's `max(p :: ps, key=lambda x: x[1])`: the running best is replaced
only on a strictly greater key, so the first maximal element wins. -/
def pyMaxBySnd {γ β : Type} [LinearOrder β] (p : γ × β) (ps : List (γ × β)) :
    γ × β :=
  ps.foldl (fun best x => if x.2 > best.2 then x else best) p

/-- `IntentRecognizer.recognize_intent`: empty text yields `("unknown", 0.0)`;
otherwise each configured intent is scored, intents with score `> 0` are kept
(in configuration order, as in the insertion-ordered `intent_scores` dict), and
`max(intent_scores.items(), key=lambda x: x[1])` picks the winner, with
confidence `min(score / 3.0, 1.0)`. -/
def recognize_intent (cfg : List (String × List String)) (text : List Char) :
    String × ℚ :=
  if text.isEmpty then ("unknown", 0)
  else
    let text_lower := pyLower text
    let intent_scores :=
      (cfg.map (fun p => (p.1, intentScore text_lower p.2))).filter
        (fun p => 0 < p.2)
    match intent_scores with
    | [] => ("unknown", 0)
    | p :: ps =>
      let best := pyMaxBySnd p ps
      (best.1, min (best.2 / 3) 1)

/-! ## Entity extractor (`IntentRecognizer.extract_entities`)

Each `re.findall` call is embedded as a left-to-right scan (`findallAux`) that
at each position asks a hand-compiled matcher for the end of a match starting
there, emits the matched slice, and resumes at the match end (the regex
engine's non-overlapping scan). Each matcher compiles its pattern's greedy
quantifiers with explicit longest-first backtracking. -/

/-- Descending candidate list `[hi, hi - 1, ..., lo]` (empty when `hi < lo`),
the order in which a greedy bounded quantifier tries match lengths. -/
def descRange (hi lo : Nat) : List Nat :=
  (List.range (hi + 1 - lo)).map (fun d => hi - d)

/-- Left-to-right non-overlapping scan of `re.findall`: at position `i`, a
match `[i, e)` is emitted and the scan resumes at `e`; otherwise the scan
advances one position. (The `i < e` guard mirrors the engine's rule for empty
matches; every matcher below consumes at least one character.) The structural
`fuel` argument only bounds the number of scan steps: every step advances the
position, so any fuel exceeding `t.length - i` gives the scan's value. -/
def findallAux (matchEnd : List Char → Nat → Option Nat) (t : List Char) :
    Nat → Nat → List String
  | 0, _ => []
  | fuel + 1, i =>
    if i < t.length then
      match matchEnd t i with
      | some e =>
        if i < e then
          String.mk ((t.drop i).take (e - i)) :: findallAux matchEnd t fuel e
        else findallAux matchEnd t fuel (i + 1)
      | none => findallAux matchEnd t fuel (i + 1)
    else []

/-- End of a match of `\b\d+\b` starting at `i`: `\d+` takes the maximal digit
run greedily; any shorter candidate ends between two digits where `\b` cannot
hold, so only the maximal run is tested against the final `\b`. -/
def numberMatchEnd (t : List Char) (i : Nat) : Option Nat :=
  if boundaryAt t i then
    let run := (t.drop i).takeWhile Char.isDigit
    if run.length = 0 then none
    else if boundaryAt t (i + run.length) then some (i + run.length) else none
  else none

/-- `re.findall(r'\b\d+\b', text)` from `extract_entities`. -/
def findall_numbers (t : List Char) : List String :=
  findallAux numberMatchEnd t (t.length + 1) 0

/-- Character at `t[p]` is `'/'` or `'-'` (the date pattern's separator class). -/
def sepAt (t : List Char) (p : Nat) : Bool :=
  match t[p]? with
  | some c => c = '/' || c = '-'
  | none => false

/-- End of a match of the date pattern (`\b\d{1,2}`, a separator, `\d{1,2}`,
a separator, `\d{2,4}\b`) starting at `i`, with each bounded quantifier tried
longest-first as the engine backtracks. -/
def dateMatchEnd (t : List Char) (i : Nat) : Option Nat :=
  if boundaryAt t i then
    let run1 := (t.drop i).takeWhile Char.isDigit
    (descRange (min 2 run1.length) 1).findSome? fun len1 =>
      let p1 := i + len1
      if sepAt t p1 then
        let run2 := (t.drop (p1 + 1)).takeWhile Char.isDigit
        (descRange (min 2 run2.length) 1).findSome? fun len2 =>
          let p2 := p1 + 1 + len2
          if sepAt t p2 then
            let run3 := (t.drop (p2 + 1)).takeWhile Char.isDigit
            (descRange (min 4 run3.length) 2).findSome? fun len3 =>
              let e := p2 + 1 + len3
              if boundaryAt t e then some e else none
          else none
      else none
  else none

/-- The `re.findall` date pass of `extract_entities` (see `dateMatchEnd`). -/
def findall_dates (t : List Char) : List String :=
  findallAux dateMatchEnd t (t.length + 1) 0

/-- The local-part class `[A-Za-z0-9._%+-]` of the email pattern. -/
def emailLocalChar (c : Char) : Bool :=
  c.isAlphanum || c = '.' || c = '_' || c = '%' || c = '+' || c = '-'

/-- The domain class `[A-Za-z0-9.-]` of the email pattern. -/
def emailDomainChar (c : Char) : Bool := c.isAlphanum || c = '.' || c = '-'

/-- The top-level-domain class `[A-Z|a-z]` of the email pattern (the `|` is a
literal member of the class, exactly as written in the source pattern). -/
def emailTldChar (c : Char) : Bool := c.isUpper || c = '|' || c.isLower

/-- `[A-Z|a-z]{2,}\b` starting at `m`: the unbounded greedy quantifier takes
the maximal class run and backtracks down to length 2 until `\b` holds. -/
def emailTldEnd (t : List Char) (m : Nat) : Option Nat :=
  let tldRun := (t.drop m).takeWhile emailTldChar
  (descRange tldRun.length 2).findSome? fun clen =>
    if boundaryAt t (m + clen) then some (m + clen) else none

/-- End of a match of `\b[A-Za-z0-9._%+-]+@[A-Za-z0-9.-]+\.[A-Z|a-z]{2,}\b`
starting at `i`. The local part is forced to the maximal class run (no class
member equals `@`, so shorter backtracking candidates are followed by a class
member, never by `@`); the domain run before the literal `.` backtracks
longest-first; the TLD backtracks inside `emailTldEnd`. -/
def emailMatchEnd (t : List Char) (i : Nat) : Option Nat :=
  if boundaryAt t i then
    let localRun := (t.drop i).takeWhile emailLocalChar
    if localRun.length = 0 then none
    else
      let j := i + localRun.length
      if t[j]? = some '@' then
        let domRun := (t.drop (j + 1)).takeWhile emailDomainChar
        (descRange domRun.length 1).findSome? fun k =>
          if t[j + 1 + k]? = some '.' then emailTldEnd t (j + 1 + k + 1)
          else none
      else none
  else none

/-- `re.findall(r'\b[A-Za-z0-9._%+-]+@[A-Za-z0-9.-]+\.[A-Z|a-z]{2,}\b', text)`. -/
def findall_emails (t : List Char) : List String :=
  findallAux emailMatchEnd t (t.length + 1) 0

/-- An entity mapping: category name to matched substrings, an insertion-ordered
Python dict modelled as an association list. -/
abbrev EntitySet := List (String × List String)

/-- `IntentRecognizer.extract_entities`: the four categories are filled in
declaration order (`products` is never populated), then categories with an
empty list are dropped from the mapping. -/
def extract_entities (text : List Char) : EntitySet :=
  [("numbers", findall_numbers text),
   ("emails", findall_emails text),
   ("dates", findall_dates text),
   ("products", ([] : List String))].filter (fun p => !p.2.isEmpty)

/-- Start of a maximal digit run bounded by NON-DIGIT boundaries, as worded in
the claim and the specification (`numbers: every maximal run of decimal digits
bounded by non-digit boundaries`): `t[i]` is a digit and `t[i-1]`, if any, is
not. -/
def claimNumStart (t : List Char) (i : Nat) : Bool :=
  (match t[i]? with
   | some c => c.isDigit
   | none => false) &&
  (decide (i = 0) ||
   match t[i - 1]? with
   | some c => !c.isDigit
   | none => true)

/-- The `numbers` category as worded in the claim: the maximal digit runs with
non-digit boundaries, in order of occurrence. Compare `findall_numbers`, which
the code computes with regex word boundaries instead. -/
def claimNumbers (t : List Char) : List String :=
  (List.range t.length).filterMap (fun i =>
    if claimNumStart t i then some (String.mk ((t.drop i).takeWhile Char.isDigit))
    else none)

/-! ## Conversation context and `analyze_query` -/

/-- The recognizer's `self.context` dict: `update_context` always writes both
of the keys `last_intent` and `last_entities`, so the dict is modelled by two
optional fields (`none` = key absent, the initial `{}`). -/
structure Context where
  last_intent : Option String
  last_entities : Option EntitySet
deriving DecidableEq, Repr

/-- The `{}` assigned in `__init__` and `clear_context`. -/
def emptyContext : Context := ⟨none, none⟩

/-- Mutable state of an `IntentRecognizer` instance. -/
structure RecognizerState where
  context : Context
deriving DecidableEq, Repr

/-- `IntentRecognizer.update_context`: overwrite both context keys. -/
def update_context (st : RecognizerState) (intent : String)
    (entities : EntitySet) : RecognizerState :=
  { st with context := ⟨some intent, some entities⟩ }

/-- The value dict returned by `IntentRecognizer.analyze_query`. -/
structure Analysis where
  text : List Char
  intent : String
  confidence : ℚ
  entities : EntitySet
  context : Context
deriving DecidableEq, Repr

/-- `IntentRecognizer.analyze_query`: recognize the intent, extract entities,
update the stored context, and return the analysis dict whose `context` entry
is `self.context` (the just-updated state). -/
def analyze_query (st : RecognizerState) (text : List Char) :
    Analysis × RecognizerState :=
  let r := recognize_intent INTENT_KEYWORDS text
  let entities := extract_entities text
  let st' := update_context st r.1 entities
  (⟨text, r.1, r.2, entities, st'.context⟩, st')

/-! ## Reference-level model of `get_context` (for the aliasing claim)

`IntentRecognizer.get_context` executes `return self.context`, handing the
caller a reference to the very dict object the recognizer keeps in
`self.context`. To talk about what a caller's in-place mutation of the
returned value does to the recognizer, the dict object lives in an explicit
store addressed by references. -/

/-- A Python dict object with string values (enough for `last_intent`). -/
abbrev PyDict := List (String × String)

/-- Set key `k` to `v` in a dict, in place semantics at value level: replace
the first binding of `k` or append a new one. -/
def dictSet (d : PyDict) (k v : String) : PyDict :=
  match d with
  | [] => [(k, v)]
  | (k', v') :: rest => if k' = k then (k, v) :: rest else (k', v') :: dictSet rest k v

/-- A store of dict objects addressed by `Nat` references, together with the
reference the recognizer keeps in `self.context`. -/
structure TrackerHeap where
  store : List PyDict
  ctxRef : Nat
deriving DecidableEq, Repr

/-- Read key `k` of the dict object at reference `r`. -/
def heapRead (store : List PyDict) (r : Nat) (k : String) : Option String :=
  match store[r]? with
  | some d => d.lookup k
  | none => none

/-- Mutate the dict object at reference `r`, setting key `k` to `v` — what a
caller's `returned_dict[k] = v` does. -/
def heapWrite (store : List PyDict) (r : Nat) (k v : String) : List PyDict :=
  match store[r]? with
  | some d => store.set r (dictSet d k v)
  | none => store

/-- `IntentRecognizer.get_context` is `return self.context`: it returns the
stored reference itself, not a reference to a copy. -/
def get_context (st : TrackerHeap) : Nat := st.ctxRef

/-! ## Response generator (`src/voice_bot/modules/response_generator.py`) -/

/-- One entry of `self.conversation_history`: the base generator appends
`{'intent', 'response'}`, the AI path additionally `'method': 'ai'`. -/
structure HistEntry where
  intent : String
  response : String
  method : Option String
deriving DecidableEq, Repr

/-- A template catalog, `Config.RESPONSE_TEMPLATES`-shaped dict. -/
abbrev Templates := List (String × List String)

/-- `Config.RESPONSE_TEMPLATES` from `src/voice_bot/config/settings.py`. -/
def RESPONSE_TEMPLATES : Templates :=
  [("greeting",
    ["Hello! How can I assist you today?",
     "Hi there! What can I do for you?",
     "Welcome! I'm here to help you."]),
   ("product_info",
    ["I can help you with product information. Which product are you interested in?",
     "Sure! Let me get you the product details. Can you specify the product name?"]),
   ("order_status",
    ["I can check your order status. Could you provide your order number?",
     "Let me help you track your order. What's your order ID?"]),
   ("account",
    ["I can assist with account-related queries. What do you need help with?",
     "I'm here to help with your account. Please describe your issue."]),
   ("support",
    ["I'm sorry you're experiencing an issue. Can you describe the problem in detail?",
     "I'm here to help resolve your issue. What seems to be the problem?"]),
   ("farewell",
    ["Thank you for contacting us! Have a great day!",
     "Goodbye! Feel free to reach out if you need anything else.",
     "It was nice helping you. Take care!"]),
   ("unknown",
    ["I'm not sure I understand. Could you please rephrase that?",
     "I didn't quite catch that. Can you provide more details?",
     "I'm still learning. Could you ask that in a different way?"])]

/-- `self.response_templates.get(intent, self.response_templates['unknown'])`:
Python evaluates the default argument eagerly, so a catalog without an
`unknown` key raises `KeyError` on every call, whatever `intent` is. -/
def templatesFor (tmpl : Templates) (intent : String) :
    Except String (List String) :=
  match tmpl.lookup "unknown" with
  | none => Except.error "KeyError: 'unknown'"
  | some dflt => Except.ok ((tmpl.lookup intent).getD dflt)

/-- `random.choice(templates)` with the random source made explicit: the oracle
`rand` selects index `rand % length`; an empty sequence raises `IndexError`. -/
def randomChoice (templates : List String) (rand : Nat) : Except String String :=
  match templates[rand % templates.length]? with
  | some s => Except.ok s
  | none => Except.error "IndexError: empty sequence"

/-- `ResponseGenerator._enhance_with_entities`: append an order-number clause
when the `numbers` category is present and non-empty, then an email clause
when `emails` is present and non-empty. -/
def enhance_with_entities (response : String) (entities : EntitySet) : String :=
  let r1 := match entities.lookup "numbers" with
    | some (n :: _) => response ++ " I see you mentioned order number " ++ n ++ "."
    | _ => response
  match entities.lookup "emails" with
  | some (e :: _) => r1 ++ " I'll send updates to " ++ e ++ "."
  | _ => r1

/-- `ResponseGenerator._add_context_awareness`: only when the context has a
truthy `last_intent` and the conversation history is non-empty, and the last
intent is `product_info`, append the clarifying prompt. -/
def add_context_awareness (response : String) (context : Context)
    (hist : List HistEntry) : String :=
  if pyStrTruthy context.last_intent && hist.length > 0 then
    if context.last_intent = some "product_info" then
      response ++ " Is there anything specific about the product you'd like to know?"
    else response
  else response

/-- Truthiness of the `context` argument (`None` and the empty dict are falsy). -/
def ctxTruthy : Option Context → Bool
  | none => false
  | some c => c.last_intent.isSome || c.last_entities.isSome

/-- Truthiness of the `entities` argument: `None` and `{}` are both falsy and
are used identically afterwards, so both are modelled by `[]`. -/
def entitiesTruthy (entities : EntitySet) : Bool := !entities.isEmpty

/-- `ResponseGenerator.generate_response`: pick templates for the intent
(KeyError surfaces as `Except.error`), choose one at random, enhance with
entities for `order_status` / `product_info`, add context awareness, append to
the conversation history, and return the response together with the history. -/
def ResponseGenerator.generate_response (tmpl : Templates) (intent : String)
    (entities : EntitySet) (context : Option Context) (hist : List HistEntry)
    (rand : Nat) : Except String (String × List HistEntry) :=
  match templatesFor tmpl intent with
  | Except.error e => Except.error e
  | Except.ok templates =>
    match randomChoice templates rand with
    | Except.error e => Except.error e
    | Except.ok base =>
      let base :=
        if entitiesTruthy entities && (intent = "order_status" || intent = "product_info")
        then enhance_with_entities base entities else base
      let base :=
        if ctxTruthy context
        then add_context_awareness base (context.getD emptyContext) hist else base
      Except.ok (base, hist ++ [⟨intent, base, none⟩])

/-! ## Database FAQ matcher (`src/voice_bot/modules/database.py`) -/

/-- A row of the `faqs` table, paired below with its decoded `keywords` column. -/
structure FAQ where
  id : Nat
  question : String
  answer : String
  category : String
  usage_count : Nat
deriving DecidableEq, Repr

/-- A stored FAQ row: the returned record fields plus the keywords column. -/
abbrev FaqRow := FAQ × List String

/-- The per-row score of `Database.get_faq_by_keywords`:
`sum(1 for kw in keywords if any(faq_kw in kw.lower() for faq_kw in faq_keywords))`. -/
def faqScore (keywords : List String) (faq_keywords : List String) : Nat :=
  (keywords.filter
    (fun kw => faq_keywords.any (fun fkw => containsSub fkw.data (pyLower kw.data)))).length

/-- `Database.get_faq_by_keywords`: running `(best_match, best_score)` pair
starting from `(None, 0)`, replaced only on a strictly greater score. (The
`usage_count` increment on the winning row is a store side effect outside the
claims about the returned value.) -/
def get_faq_by_keywords (rows : List FaqRow) (keywords : List String) :
    Option FAQ :=
  (rows.foldl
    (fun best row =>
      let score := faqScore keywords row.2
      if score > best.2 then (some row.1, score) else best)
    ((none : Option FAQ), 0)).1

/-- Record score as worded in the specification: the number of input tokens of
which at least one record keyword is a substring (the spec fixes the tokens to
be lowercase, so no lowering appears here; compare `faqScore`). -/
def claimFaqScore (keywords : List String) (faq_keywords : List String) : Nat :=
  (keywords.filter
    (fun kw => faq_keywords.any (fun fkw => containsSub fkw.data kw.data))).length

/-! ## Advanced response generator (FAQ + OpenAI stages) -/

/-- `AdvancedResponseGenerator._check_faq`: lowercase and whitespace-split the
query (Python `str.split()` drops empty tokens), look the tokens up in the FAQ
store, and return the matched answer if any. -/
def check_faq (db : List FaqRow) (user_query : String) : Option String :=
  let keywords :=
    ((String.mk (pyLower user_query.data)).split (fun c => c.isWhitespace)).filter
      (fun s => !s.isEmpty)
  (get_faq_by_keywords db keywords).map (fun faq => faq.answer)

/-- `AdvancedResponseGenerator.generate_response_ai` with the OpenAI call's
outcome supplied as `aiCall`. With no client it calls `self.generate_response`
with `user_query=None`, which skips the FAQ and AI stages and so equals the
base template path. On API success the stripped completion is appended to the
history with method `ai`; on an API exception the handler falls back to
`super().generate_response`. -/
def generate_response_ai (tmpl : Templates) (ai_client : Bool)
    (aiCall : Except String String) (intent : String) (entities : EntitySet)
    (context : Option Context) (hist : List HistEntry) (rand : Nat) :
    Except String (String × List HistEntry) :=
  if !ai_client then
    ResponseGenerator.generate_response tmpl intent entities context hist rand
  else
    match aiCall with
    | Except.ok content =>
      let ai_response := content.trim
      Except.ok (ai_response, hist ++ [⟨intent, ai_response, some "ai"⟩])
    | Except.error _ =>
      ResponseGenerator.generate_response tmpl intent entities context hist rand

/-- The FAQ stage of `AdvancedResponseGenerator.generate_response`: the guard
`if self.database and user_query:` followed by `self._check_faq(user_query)`
(`None` when the guard fails). -/
def faqStage (db : Option (List FaqRow)) (user_query : Option String) :
    Option String :=
  match db, user_query with
  | some rows, some q => if !q.isEmpty then check_faq rows q else none
  | _, _ => none

/-- `AdvancedResponseGenerator.generate_response`: FAQ lookup first (when a
database is configured and `user_query` is truthy; a truthy answer is returned
with the history untouched), then the AI stage (when enabled, with the
surrounding `try/except` falling back to the base template path — an error
from the fallback inside the `except` re-runs the same base path, with the
same outcome), then the template stage. -/
def AdvancedResponseGenerator.generate_response (tmpl : Templates)
    (db : Option (List FaqRow)) (use_ai_model ai_client : Bool)
    (aiCall : Except String String) (intent : String) (entities : EntitySet)
    (context : Option Context) (user_query : Option String)
    (hist : List HistEntry) (rand : Nat) :
    Except String (String × List HistEntry) :=
  let faqHit : Option String := faqStage db user_query
  if pyStrTruthy faqHit then Except.ok (faqHit.getD "", hist)
  else if use_ai_model && ai_client && pyStrTruthy user_query then
    match generate_response_ai tmpl ai_client aiCall intent entities context hist rand with
    | Except.ok r => Except.ok r
    | Except.error _ =>
      ResponseGenerator.generate_response tmpl intent entities context hist rand
  else ResponseGenerator.generate_response tmpl intent entities context hist rand

/-! ## Config validation and the main pipeline -/

/-- The configuration surface read by `Config.validate`, plus the catalog and
keyword configuration it could have validated. File existence is an
environment fact supplied as a field. -/
structure ConfigState where
  google_application_credentials : Option String
  credentials_file_exists : Bool
  response_templates : Templates
  intent_keywords : List (String × List String)
deriving DecidableEq, Repr

/-- `Config.validate`: raise unless the Google credentials variable is truthy
and the file exists; nothing else is inspected. -/
def Config.validate (c : ConfigState) : Except String Bool :=
  if !pyStrTruthy c.google_application_credentials then
    Except.error "GOOGLE_APPLICATION_CREDENTIALS not set in environment"
  else if !c.credentials_file_exists then
    Except.error ("Google credentials file not found at: "
      ++ (c.google_application_credentials.getD ""))
  else Except.ok true

/-- `VoiceBot.process_text_input` (`src/voice_bot/main.py`): analyze the text,
then call the base generator with `analysis['intent']`, `analysis['entities']`
and `analysis['context']`. -/
def process_text_input (st : RecognizerState) (hist : List HistEntry)
    (rand : Nat) (text : List Char) :
    (Except String (String × List HistEntry)) × RecognizerState :=
  let a := analyze_query st text
  (ResponseGenerator.generate_response RESPONSE_TEMPLATES a.1.intent a.1.entities
    (some a.1.context) hist rand, a.2)

/-! # Supporting lemmas -/

/-- The first-maximal fold splits its input around the result: every element
strictly before the result scores strictly less, and no element after it
scores more — so the result is a maximal element and ties go to the earliest. -/
theorem pyMaxBySnd_split {γ β : Type} [LinearOrder β] (l : List (γ × β)) :
    ∀ p : γ × β, ∃ l₁ l₂, p :: l = l₁ ++ pyMaxBySnd p l :: l₂ ∧
      (∀ q ∈ l₁, q.2 < (pyMaxBySnd p l).2) ∧
      (∀ q ∈ l₂, q.2 ≤ (pyMaxBySnd p l).2) := by
  induction l with
  | nil => exact fun p => ⟨[], [], rfl, by simp, by simp⟩
  | cons x l ih =>
    intro p
    have hstep : pyMaxBySnd p (x :: l) = pyMaxBySnd (if x.2 > p.2 then x else p) l := rfl
    by_cases hx : x.2 > p.2
    · rw [hstep, if_pos hx]
      obtain ⟨l₁, l₂, heq, h₁, h₂⟩ := ih x
      have hmem : ∀ q ∈ x :: l, q.2 ≤ (pyMaxBySnd x l).2 := by
        intro q hq
        rw [heq] at hq
        rcases List.mem_append.1 hq with h | h
        · exact le_of_lt (h₁ q h)
        · rcases List.mem_cons.1 h with h | h
          · rw [h]
          · exact h₂ q h
      refine ⟨p :: l₁, l₂, by rw [List.cons_append, ← heq], ?_, h₂⟩
      intro q hq
      rcases List.mem_cons.1 hq with h | h
      · rw [h]; exact lt_of_lt_of_le hx (hmem x (List.mem_cons_self x l))
      · exact h₁ q h
    · rw [hstep, if_neg hx]
      have hxle : x.2 ≤ p.2 := not_lt.mp hx
      obtain ⟨l₁, l₂, heq, h₁, h₂⟩ := ih p
      revert heq h₁ h₂
      generalize pyMaxBySnd p l = r
      intro heq h₁ h₂
      cases l₁ with
      | nil =>
        obtain ⟨h1, h2⟩ := List.cons.inj heq
        refine ⟨[], x :: l₂, by rw [List.nil_append, ← h1, h2], by simp, ?_⟩
        intro q hq
        rcases List.mem_cons.1 hq with h | h
        · rw [h, ← h1]; exact hxle
        · exact h₂ q h
      | cons b l₁' =>
        rw [List.cons_append] at heq
        obtain ⟨h1, h2⟩ := List.cons.inj heq
        have hbr : b.2 < r.2 := h₁ b (List.mem_cons_self b l₁')
        refine ⟨p :: x :: l₁', l₂,
          by rw [h2, List.cons_append, List.cons_append], ?_, h₂⟩
        intro q hq
        rcases List.mem_cons.1 hq with h | h
        · rw [h, h1]; exact hbr
        · rcases List.mem_cons.1 h with h | h
          · rw [h]; exact lt_of_le_of_lt (le_of_le_of_eq hxle (congrArg Prod.snd h1)) hbr
          · exact h₁ q (List.mem_cons_of_mem b h)

/-- A split of a filtered list lifts to a split of the original list: the
dropped elements all fail the filter predicate. -/
theorem filter_split {α : Type} (pr : α → Bool) :
    ∀ (l l₁ : List α) (r : α) (l₂ : List α), l.filter pr = l₁ ++ r :: l₂ →
      ∃ m₁ m₂, l = m₁ ++ r :: m₂ ∧ m₁.filter pr = l₁ ∧ m₂.filter pr = l₂ := by
  intro l
  induction l with
  | nil => intro l₁ r l₂ h; rw [List.filter_nil] at h; cases l₁ <;> simp_all
  | cons a l ih =>
    intro l₁ r l₂ h
    by_cases ha : pr a
    · rw [List.filter_cons_of_pos ha] at h
      cases l₁ with
      | nil =>
        rw [List.nil_append] at h
        obtain ⟨h1, h2⟩ := List.cons.inj h
        exact ⟨[], l, by rw [List.nil_append, h1], rfl, h2⟩
      | cons b l₁' =>
        rw [List.cons_append] at h
        obtain ⟨h1, h2⟩ := List.cons.inj h
        obtain ⟨m₁, m₂, hm, hf1, hf2⟩ := ih l₁' r l₂ h2
        exact ⟨a :: m₁, m₂, by rw [hm]; rfl,
          by rw [List.filter_cons_of_pos ha, hf1, h1], hf2⟩
    · rw [List.filter_cons_of_neg (by simpa using ha)] at h
      obtain ⟨m₁, m₂, hm, hf1, hf2⟩ := ih l₁ r l₂ h
      exact ⟨a :: m₁, m₂, by rw [hm]; rfl,
        by rw [List.filter_cons_of_neg (by simpa using ha), hf1], hf2⟩

/-- The explicit running-best loop of `get_faq_by_keywords` is the
first-maximal fold over the scored rows. -/
theorem get_faq_foldl_eq (keywords : List String) :
    ∀ (rows : List FaqRow) (b : Option FAQ × Nat),
      rows.foldl
        (fun best row =>
          let score := faqScore keywords row.2
          if score > best.2 then (some row.1, score) else best) b
      = pyMaxBySnd b (rows.map (fun row => (some row.1, faqScore keywords row.2))) := by
  intro rows
  induction rows with
  | nil => intro b; rfl
  | cons x rows ih =>
    intro b
    rw [List.foldl_cons, ih, List.map_cons]
    have hunfold :
        pyMaxBySnd b ((some x.1, faqScore keywords x.2)
            :: rows.map (fun row => (some row.1, faqScore keywords row.2)))
          = pyMaxBySnd
              (if faqScore keywords x.2 > b.2 then (some x.1, faqScore keywords x.2) else b)
              (rows.map (fun row => (some row.1, faqScore keywords row.2))) := rfl
    rw [hunfold]

/-- In an association list whose values are all non-empty, every successful
lookup returns a non-empty value. -/
theorem lookup_val_ne_nil {l : Templates}
    (hl : ∀ p ∈ l, p.2 ≠ ([] : List String)) :
    ∀ s v, l.lookup s = some v → v ≠ [] := by
  induction l with
  | nil => intro s v h; simp [List.lookup] at h
  | cons p l ih =>
    intro s v h
    rw [List.lookup] at h
    by_cases hps : s == p.1
    · simp only [hps] at h
      exact Option.some.inj h ▸ hl p (List.mem_cons_self p l)
    · simp only [Bool.not_eq_true] at hps
      simp only [hps] at h
      exact ih (fun q hq => hl q (List.mem_cons_of_mem p hq)) s v h

/-- `recognize_intent` on empty text, or when no configured intent has a
positive score, returns `("unknown", 0)`. -/
theorem recognize_intent_zero (cfg : List (String × List String)) (t : List Char)
    (h : t.isEmpty = true
      ∨ ∀ q ∈ cfg.map (fun p => (p.1, intentScore (pyLower t) p.2)), q.2 ≤ 0) :
    recognize_intent cfg t = ("unknown", 0) := by
  rcases h with h | h
  · simp [recognize_intent, h]
  · by_cases ht : t.isEmpty
    · simp [recognize_intent, ht]
    · have hfil : (cfg.map (fun p => (p.1, intentScore (pyLower t) p.2))).filter
          (fun p => 0 < p.2) = [] := by
        rw [List.filter_eq_nil_iff]
        intro q hq
        simpa using not_lt.mpr (h q hq)
      simp [recognize_intent, ht, hfil]

/-- When the text is non-empty and some configured intent scores positively,
`recognize_intent` returns the first intent of maximal score, with confidence
`min (score / 3) 1`; the scored configuration splits around the winner with
strictly smaller scores before it and no greater score after it. -/
theorem recognize_intent_pos (cfg : List (String × List String)) (t : List Char)
    (ht : t.isEmpty = false)
    (h : ∃ q ∈ cfg.map (fun p => (p.1, intentScore (pyLower t) p.2)), 0 < q.2) :
    ∃ best m₁ m₂,
      cfg.map (fun p => (p.1, intentScore (pyLower t) p.2)) = m₁ ++ best :: m₂ ∧
      0 < best.2 ∧
      (∀ q ∈ m₁, q.2 < best.2) ∧
      (∀ q ∈ m₂, q.2 ≤ best.2) ∧
      recognize_intent cfg t = (best.1, min (best.2 / 3) 1) := by
  obtain ⟨q0, hq0mem, hq0⟩ := h
  cases hsc : (cfg.map (fun p => (p.1, intentScore (pyLower t) p.2))).filter
      (fun p => 0 < p.2) with
  | nil =>
    exact absurd (hsc ▸ List.mem_filter.2 ⟨hq0mem, by simpa using hq0⟩)
      (List.not_mem_nil q0)
  | cons p ps =>
    obtain ⟨l₁, l₂, heq, h₁, h₂⟩ := pyMaxBySnd_split ps p
    set best := pyMaxBySnd p ps with hbest
    have hfilsplit : (cfg.map (fun p => (p.1, intentScore (pyLower t) p.2))).filter
        (fun p => 0 < p.2) = l₁ ++ best :: l₂ := by rw [hsc, heq]
    have hbestmem : best ∈ (cfg.map (fun p => (p.1, intentScore (pyLower t) p.2))).filter
        (fun p => 0 < p.2) := by
      rw [hfilsplit]
      exact List.mem_append_right l₁ (List.mem_cons_self best l₂)
    have hbestpos : 0 < best.2 := by
      simpa using (List.mem_filter.1 hbestmem).2
    obtain ⟨m₁, m₂, hm, hf1, hf2⟩ := filter_split _ _ l₁ best l₂ hfilsplit
    refine ⟨best, m₁, m₂, hm, hbestpos, ?_, ?_, ?_⟩
    · intro q hq
      by_cases hqpos : 0 < q.2
      · exact h₁ q (hf1 ▸ List.mem_filter.2 ⟨hq, by simpa using hqpos⟩)
      · exact lt_of_le_of_lt (not_lt.mp hqpos) hbestpos
    · intro q hq
      by_cases hqpos : 0 < q.2
      · exact h₂ q (hf2 ▸ List.mem_filter.2 ⟨hq, by simpa using hqpos⟩)
      · exact le_trans (not_lt.mp hqpos) (le_of_lt hbestpos)
    · simp only [recognize_intent, ht, Bool.false_eq_true, if_false, hsc]

/-- The first-maximal fold does not move off its start value when no element
scores strictly more. -/
theorem pyMaxBySnd_no_update {γ β : Type} [LinearOrder β] (l : List (γ × β)) :
    ∀ p : γ × β, (∀ q ∈ l, q.2 ≤ p.2) → pyMaxBySnd p l = p := by
  induction l with
  | nil => intro p _; rfl
  | cons x l ih =>
    intro p h
    have hx : ¬ x.2 > p.2 := not_lt.mpr (h x (List.mem_cons_self x l))
    have hstep : pyMaxBySnd p (x :: l) = pyMaxBySnd (if x.2 > p.2 then x else p) l := rfl
    rw [hstep, if_neg hx]
    exact ih p (fun q hq => h q (List.mem_cons_of_mem x hq))

/-- A split of a mapped list lifts to a split of the original list. -/
theorem map_split {α γ : Type} (g : α → γ) :
    ∀ (l : List α) (l₁ : List γ) (r : γ) (l₂ : List γ), l.map g = l₁ ++ r :: l₂ →
      ∃ m₁ a m₂, l = m₁ ++ a :: m₂ ∧ m₁.map g = l₁ ∧ g a = r ∧ m₂.map g = l₂ := by
  intro l
  induction l with
  | nil => intro l₁ r l₂ h; rw [List.map_nil] at h; cases l₁ <;> simp_all
  | cons a l ih =>
    intro l₁ r l₂ h
    rw [List.map_cons] at h
    cases l₁ with
    | nil =>
      rw [List.nil_append] at h
      obtain ⟨h1, h2⟩ := List.cons.inj h
      exact ⟨[], a, l, rfl, rfl, h1, h2⟩
    | cons b l₁' =>
      rw [List.cons_append] at h
      obtain ⟨h1, h2⟩ := List.cons.inj h
      obtain ⟨m₁, x, m₂, hm, hg1, hgx, hg2⟩ := ih l₁' r l₂ h2
      exact ⟨a :: m₁, x, m₂, by rw [hm]; rfl,
        by rw [List.map_cons, hg1, h1], hgx, hg2⟩

/-- Under lowercase tokens, the implementation's row score coincides with the
specification's row score. -/
theorem faqScore_eq_claim {keywords : List String}
    (hlower : ∀ kw ∈ keywords, pyLower kw.data = kw.data)
    (fkws : List String) : faqScore keywords fkws = claimFaqScore keywords fkws := by
  unfold faqScore claimFaqScore
  congr 1
  apply List.filter_congr
  intro kw hkw
  rw [hlower kw hkw]

/-! # Claim theorems -/

/-- C2: for lowercase input tokens, the knowledge-base matcher scores each
stored record by the number of tokens of which at least one record keyword is
a substring, returns `none` exactly when every record scores 0, and otherwise
returns a record of maximal score, every earlier-stored record scoring
strictly less than the winner (so ties resolve to the earliest-stored
record). -/
theorem claim_C2_faq_matcher (rows : List FaqRow) (keywords : List String)
    (hlower : ∀ kw ∈ keywords, pyLower kw.data = kw.data) :
    (get_faq_by_keywords rows keywords = none ↔
      ∀ row ∈ rows, claimFaqScore keywords row.2 = 0) ∧
    (∀ faq, get_faq_by_keywords rows keywords = some faq →
      ∃ m₁ row m₂, rows = m₁ ++ row :: m₂ ∧ row.1 = faq ∧
        0 < claimFaqScore keywords row.2 ∧
        (∀ r ∈ m₁, claimFaqScore keywords r.2 < claimFaqScore keywords row.2) ∧
        (∀ r ∈ m₂, claimFaqScore keywords r.2 ≤ claimFaqScore keywords row.2)) := by
  have hval : get_faq_by_keywords rows keywords
      = (pyMaxBySnd ((none : Option FAQ), 0)
          (rows.map (fun row => (some row.1, faqScore keywords row.2)))).1 := by
    rw [get_faq_by_keywords, get_faq_foldl_eq]
  obtain ⟨l₁, l₂, heq, h₁, h₂⟩ :=
    pyMaxBySnd_split (rows.map (fun row => (some row.1, faqScore keywords row.2)))
      ((none : Option FAQ), 0)
  revert hval heq h₁ h₂
  generalize hbesteq : pyMaxBySnd ((none : Option FAQ), 0)
      (rows.map (fun row => (some row.1, faqScore keywords row.2))) = best
  intro hval heq h₁ h₂
  have hmax : ∀ q ∈ ((none : Option FAQ), 0)
      :: rows.map (fun row => (some row.1, faqScore keywords row.2)), q.2 ≤ best.2 := by
    intro q hq
    rw [heq] at hq
    rcases List.mem_append.1 hq with h | h
    · exact le_of_lt (h₁ q h)
    · rcases List.mem_cons.1 h with h | h
      · rw [h]
      · exact h₂ q h
  constructor
  · constructor
    · intro hnone row hrow
      by_contra hpos
      have hpos' : 0 < faqScore keywords row.2 := by
        rw [faqScore_eq_claim hlower]
        exact Nat.pos_of_ne_zero hpos
      have hmem : (some row.1, faqScore keywords row.2)
          ∈ rows.map (fun row => (some row.1, faqScore keywords row.2)) :=
        List.mem_map_of_mem _ hrow
      have hbestpos : 0 < best.2 :=
        lt_of_lt_of_le hpos' (hmax _ (List.mem_cons_of_mem _ hmem))
      have hbestcons : best ∈ ((none : Option FAQ), 0)
          :: rows.map (fun row => (some row.1, faqScore keywords row.2)) := by
        rw [heq]
        exact List.mem_append_right l₁ (List.mem_cons_self best l₂)
      rcases List.mem_cons.1 hbestcons with h | h
      · rw [h] at hbestpos; exact absurd hbestpos (lt_irrefl 0)
      · obtain ⟨row', _, hrow'⟩ := List.mem_map.1 h
        have : best.1 = some row'.1 := by rw [← hrow']
        rw [hval, this] at hnone
        exact Option.noConfusion hnone
    · intro hzero
      have hnoup : best = ((none : Option FAQ), 0) := by
        have := pyMaxBySnd_no_update
          (rows.map (fun row => (some row.1, faqScore keywords row.2)))
          ((none : Option FAQ), 0) ?_
        · rw [← hbesteq]; exact this
        · intro q hq
          obtain ⟨row, hrow, hrowq⟩ := List.mem_map.1 hq
          have : q.2 = faqScore keywords row.2 := by rw [← hrowq]
          rw [this, faqScore_eq_claim hlower, hzero row hrow]
      rw [hval, hnoup]
  · intro faq hsome
    rw [hval] at hsome
    cases l₁ with
    | nil =>
      obtain ⟨h1, _⟩ := List.cons.inj heq
      rw [← h1] at hsome
      exact Option.noConfusion hsome
    | cons b l₁' =>
      rw [List.cons_append] at heq
      obtain ⟨h1, h2⟩ := List.cons.inj heq
      obtain ⟨m₁, row, m₂, hm, hg1, hgrow, hg2⟩ :=
        map_split _ rows l₁' best l₂ h2
      have hrow1 : some row.1 = best.1 := congrArg Prod.fst hgrow
      have hrow2 : faqScore keywords row.2 = best.2 := congrArg Prod.snd hgrow
      have hbestpos : 0 < best.2 := by
        have := h₁ b (List.mem_cons_self b l₁')
        rw [← h1] at this
        exact this
      have hrowscore : claimFaqScore keywords row.2 = best.2 := by
        rw [← faqScore_eq_claim hlower, hrow2]
      refine ⟨m₁, row, m₂, hm, ?_, ?_, ?_, ?_⟩
      · exact Option.some.inj (hrow1.trans hsome)
      · rw [hrowscore]; exact hbestpos
      · intro r hr
        have : (some r.1, faqScore keywords r.2) ∈ l₁' := by
          rw [← hg1]
          exact List.mem_map_of_mem _ hr
        have hlt := h₁ _ (List.mem_cons_of_mem b this)
        rw [hrowscore, ← faqScore_eq_claim hlower]
        exact hlt
      · intro r hr
        have : (some r.1, faqScore keywords r.2) ∈ l₂ := by
          rw [← hg2]
          exact List.mem_map_of_mem _ hr
        have hle := h₂ _ this
        rw [hrowscore, ← faqScore_eq_claim hlower]
        exact hle

/-- Witness for C2: a two-record store where both records score 1 on the
tokens `["order", "shipping"]`; the matcher's answer satisfies the proved
characterization (and is in fact the earlier-stored record). -/
theorem claim_C2_faq_matcher_witness :
    (∀ kw ∈ ["order", "shipping"], pyLower kw.data = kw.data) ∧
    (get_faq_by_keywords
        [(⟨1, "q1", "a1", "c1", 0⟩, ["ship"]), (⟨2, "q2", "a2", "c2", 0⟩, ["order"])]
        ["order", "shipping"] = none ↔
      ∀ row ∈ [((⟨1, "q1", "a1", "c1", 0⟩ : FAQ), ["ship"]),
               ((⟨2, "q2", "a2", "c2", 0⟩ : FAQ), ["order"])],
        claimFaqScore ["order", "shipping"] row.2 = 0) :=
  ⟨by decide,
   (claim_C2_faq_matcher
      [(⟨1, "q1", "a1", "c1", 0⟩, ["ship"]), (⟨2, "q2", "a2", "c2", 0⟩, ["order"])]
      ["order", "shipping"] (by decide)).1⟩

/-- C3: for non-empty text on which at least one configured intent scores
positively, the classifier lowercases the text, scores each configured intent
(1.0 per keyword occurring as a substring plus a 0.5 whole-word bonus — the
content of `intentScore`), picks the intent of strictly greatest score with
ties broken by the earliest intent in configuration order (every
earlier-declared intent scores strictly less than the winner), and returns
confidence `min (score / 3) 1`. -/
theorem claim_C3_classifier (cfg : List (String × List String)) (t : List Char)
    (ht : t.isEmpty = false)
    (h : ∃ q ∈ cfg.map (fun p => (p.1, intentScore (pyLower t) p.2)), 0 < q.2) :
    ∃ best m₁ m₂,
      cfg.map (fun p => (p.1, intentScore (pyLower t) p.2)) = m₁ ++ best :: m₂ ∧
      0 < best.2 ∧
      (∀ q ∈ m₁, q.2 < best.2) ∧
      (∀ q ∈ m₂, q.2 ≤ best.2) ∧
      recognize_intent cfg t = (best.1, min (best.2 / 3) 1) := by
  obtain ⟨best, m₁, m₂, hm, hpos, hlt, hle, hrec⟩ := recognize_intent_pos cfg t ht h
  exact ⟨best, m₁, m₂, hm, hpos, hlt, hle, hrec⟩

/-- Witness for C3 at the input `"hi"`: the `greeting` intent scores 1.5 and
the conclusion of the classifier theorem holds there. -/
theorem claim_C3_classifier_witness :
    ("hi".data.isEmpty = false) ∧
    (∃ q ∈ INTENT_KEYWORDS.map (fun p => (p.1, intentScore (pyLower "hi".data) p.2)),
      0 < q.2) ∧
    (∃ best m₁ m₂,
      INTENT_KEYWORDS.map (fun p => (p.1, intentScore (pyLower "hi".data) p.2))
          = m₁ ++ best :: m₂ ∧
      0 < best.2 ∧
      (∀ q ∈ m₁, q.2 < best.2) ∧
      (∀ q ∈ m₂, q.2 ≤ best.2) ∧
      recognize_intent INTENT_KEYWORDS "hi".data = (best.1, min (best.2 / 3) 1)) := by
  have hpos : ∃ q ∈ INTENT_KEYWORDS.map
      (fun p => (p.1, intentScore (pyLower "hi".data) p.2)), 0 < q.2 := by
    refine ⟨("greeting", intentScore (pyLower "hi".data)
      ["hello", "hi", "hey", "good morning", "good afternoon", "good evening"]),
      List.mem_map_of_mem _ (List.mem_cons_self _ _), ?_⟩
    norm_num +decide [intentScore, List.foldl]
  exact ⟨rfl, hpos, claim_C3_classifier INTENT_KEYWORDS "hi".data rfl hpos⟩

/-- C8: for every input text, the recognized confidence lies in `[0, 1]` and
it is `0` exactly when the recognized intent is `"unknown"`. -/
theorem claim_C8_confidence_invariant (t : List Char) :
    0 ≤ (recognize_intent INTENT_KEYWORDS t).2 ∧
    (recognize_intent INTENT_KEYWORDS t).2 ≤ 1 ∧
    ((recognize_intent INTENT_KEYWORDS t).2 = 0
      ↔ (recognize_intent INTENT_KEYWORDS t).1 = "unknown") := by
  by_cases hzero : t.isEmpty = true
      ∨ ∀ q ∈ INTENT_KEYWORDS.map (fun p => (p.1, intentScore (pyLower t) p.2)), q.2 ≤ 0
  · rw [recognize_intent_zero INTENT_KEYWORDS t hzero]
    norm_num
  · push_neg at hzero
    obtain ⟨ht, q0, hq0mem, hq0⟩ := hzero
    obtain ⟨best, m₁, m₂, hm, hpos, _, _, hrec⟩ :=
      recognize_intent_pos INTENT_KEYWORDS t (by simpa using ht) ⟨q0, hq0mem, hq0⟩
    rw [hrec]
    have hconf : 0 < min (best.2 / 3) 1 :=
      lt_min (div_pos hpos (by norm_num)) one_pos
    have hname : best.1 ≠ "unknown" := by
      have hbm : best ∈ INTENT_KEYWORDS.map (fun p => (p.1, intentScore (pyLower t) p.2)) := by
        rw [hm]
        exact List.mem_append_right m₁ (List.mem_cons_self best m₂)
      obtain ⟨pq, hpq, hpqeq⟩ := List.mem_map.1 hbm
      have hkeys : ∀ r ∈ INTENT_KEYWORDS, r.1 ≠ "unknown" := by decide
      have : best.1 = pq.1 := by rw [← hpqeq]
      rw [this]
      exact hkeys pq hpq
    refine ⟨le_of_lt hconf, min_le_right _ _, ?_, ?_⟩
    · intro h0
      exact absurd h0 (ne_of_gt hconf)
    · intro hu
      exact absurd hu hname

/-- C9: after one `analyze_query` call on text `t`, the recognizer's stored
context has `last_intent` equal to the intent recognized for `t` and
`last_entities` equal to the entities extracted from `t`. -/
theorem claim_C9_context_roundtrip (st : RecognizerState) (t : List Char) :
    ((analyze_query st t).2).context.last_intent
        = some (recognize_intent INTENT_KEYWORDS t).1 ∧
    ((analyze_query st t).2).context.last_entities = some (extract_entities t) :=
  ⟨rfl, rfl⟩

/-- C10: the `context` entry of the dict returned by `analyze_query t` is the
already-updated context, whose `last_intent` is the intent of `t` itself; and
`process_text_input` passes exactly that context — carrying the current turn's
intent — to `generate_response`. -/
theorem claim_C10_context_is_current (st : RecognizerState)
    (hist : List HistEntry) (rand : Nat) (t : List Char) :
    (analyze_query st t).1.context.last_intent
        = some ((analyze_query st t).1.intent) ∧
    process_text_input st hist rand t =
      (ResponseGenerator.generate_response RESPONSE_TEMPLATES
        (recognize_intent INTENT_KEYWORDS t).1 (extract_entities t)
        (some ⟨some (recognize_intent INTENT_KEYWORDS t).1, some (extract_entities t)⟩)
        hist rand,
       update_context st (recognize_intent INTENT_KEYWORDS t).1 (extract_entities t)) :=
  ⟨rfl, rfl⟩

/-- With the shipped template catalog, the base (template-stage) generator
always succeeds: the `unknown` entry is present and every entry is non-empty. -/
theorem generate_response_templates_ok (intent : String) (entities : EntitySet)
    (context : Option Context) (hist : List HistEntry) (rand : Nat) :
    ∃ r h', ResponseGenerator.generate_response RESPONSE_TEMPLATES intent
      entities context hist rand = Except.ok (r, h') := by
  have hvals : ∀ p ∈ RESPONSE_TEMPLATES, p.2 ≠ ([] : List String) := by decide
  cases hlk : RESPONSE_TEMPLATES.lookup "unknown" with
  | none => exact absurd hlk (by decide)
  | some d =>
    have hd : d ≠ [] := lookup_val_ne_nil hvals "unknown" d hlk
    have htempl : ∀ l, RESPONSE_TEMPLATES.lookup intent = l →
        (l.getD d) ≠ ([] : List String) := by
      intro l hl
      cases l with
      | none => exact hd
      | some v => exact lookup_val_ne_nil hvals intent v hl
    have hne := htempl _ rfl
    have hlen : 0 < ((RESPONSE_TEMPLATES.lookup intent).getD d).length :=
      List.length_pos.2 hne
    have hidx : rand % ((RESPONSE_TEMPLATES.lookup intent).getD d).length
        < ((RESPONSE_TEMPLATES.lookup intent).getD d).length := Nat.mod_lt _ hlen
    have htf : templatesFor RESPONSE_TEMPLATES intent
        = Except.ok ((RESPONSE_TEMPLATES.lookup intent).getD d) := by
      unfold templatesFor
      rw [hlk]
    have hrc : randomChoice ((RESPONSE_TEMPLATES.lookup intent).getD d) rand
        = Except.ok (((RESPONSE_TEMPLATES.lookup intent).getD d).get
            ⟨rand % ((RESPONSE_TEMPLATES.lookup intent).getD d).length, hidx⟩) := by
      unfold randomChoice
      rw [List.getElem?_eq_getElem hidx]
      rfl
    unfold ResponseGenerator.generate_response
    simp only [htf, hrc]
    exact ⟨_, _, rfl⟩

/-- Any advanced-generator call whose AI stage fails reduces to the FAQ stage
followed by the base template stage. -/
theorem adv_generate_ai_error (tmpl : Templates) (db : Option (List FaqRow))
    (intent : String) (entities : EntitySet) (context : Option Context)
    (q : String) (hist : List HistEntry) (rand : Nat) (e : String) :
    AdvancedResponseGenerator.generate_response tmpl db true true (Except.error e)
      intent entities context (some q) hist rand
    = if pyStrTruthy (faqStage db (some q)) then
        Except.ok ((faqStage db (some q)).getD "", hist)
      else ResponseGenerator.generate_response tmpl intent entities context hist rand := by
  have hai : generate_response_ai tmpl true (Except.error e) intent entities context hist rand
      = ResponseGenerator.generate_response tmpl intent entities context hist rand := rfl
  unfold AdvancedResponseGenerator.generate_response
  by_cases hfq : pyStrTruthy (faqStage db (some q))
  · simp only [hfq, if_true]
  · simp only [Bool.not_eq_true] at hfq
    simp only [hfq, Bool.false_eq_true, if_false, Bool.true_and]
    by_cases hq : pyStrTruthy (some q)
    · simp only [hq, if_true, hai]
      cases hbase : ResponseGenerator.generate_response tmpl intent entities context hist rand with
      | ok r => rfl
      | error s => rfl
    · simp only [Bool.not_eq_true] at hq
      simp only [hq, Bool.false_eq_true, if_false]

/-- An advanced-generator call with the AI stage disabled also reduces to the
FAQ stage followed by the base template stage. -/
theorem adv_generate_ai_disabled (tmpl : Templates) (db : Option (List FaqRow))
    (aiC : Except String String) (intent : String) (entities : EntitySet)
    (context : Option Context) (q : String) (hist : List HistEntry) (rand : Nat) :
    AdvancedResponseGenerator.generate_response tmpl db false false aiC
      intent entities context (some q) hist rand
    = if pyStrTruthy (faqStage db (some q)) then
        Except.ok ((faqStage db (some q)).getD "", hist)
      else ResponseGenerator.generate_response tmpl intent entities context hist rand := by
  unfold AdvancedResponseGenerator.generate_response
  by_cases hfq : pyStrTruthy (faqStage db (some q))
  · simp only [hfq, if_true]
  · simp only [Bool.not_eq_true] at hfq
    simp only [hfq, Bool.false_eq_true, if_false, Bool.false_and]

/-- C1: when the generative (OpenAI) stage raises, the exception is swallowed
inside the generator and the chain proceeds to the template stage — the result
equals the result with the generative stage disabled entirely, and with the
shipped template catalog the caller always receives a response string
(an `Except.ok` value). -/
theorem claim_C1_ai_failure_swallowed :
    (∀ (tmpl : Templates) (db : Option (List FaqRow)) (intent : String)
        (entities : EntitySet) (context : Option Context) (q : String)
        (hist : List HistEntry) (rand : Nat) (e : String) (aiC : Except String String),
      AdvancedResponseGenerator.generate_response tmpl db true true (Except.error e)
        intent entities context (some q) hist rand
      = AdvancedResponseGenerator.generate_response tmpl db false false aiC
          intent entities context (some q) hist rand) ∧
    (∀ (db : Option (List FaqRow)) (intent : String) (entities : EntitySet)
        (context : Option Context) (q : String) (hist : List HistEntry)
        (rand : Nat) (e : String),
      ∃ r h', AdvancedResponseGenerator.generate_response RESPONSE_TEMPLATES db
        true true (Except.error e) intent entities context (some q) hist rand
        = Except.ok (r, h')) := by
  constructor
  · intro tmpl db intent entities context q hist rand e aiC
    rw [adv_generate_ai_error, adv_generate_ai_disabled]
  · intro db intent entities context q hist rand e
    rw [adv_generate_ai_error]
    by_cases hfq : pyStrTruthy (faqStage db (some q))
    · exact ⟨_, hist, by rw [if_pos hfq]⟩
    · rw [if_neg hfq]
      exact generate_response_templates_ok intent entities context hist rand

/-- C6 (counterexample): on the generator's first-ever call the conversation
history is empty, so even with `last_intent = "product_info"` in the context
the clarifying prompt is not appended — the returned response is a bare
greeting template that does not end with the prompt. -/
theorem claim_C6_counterexample :
    ResponseGenerator.generate_response RESPONSE_TEMPLATES "greeting" []
        (some ⟨some "product_info", none⟩) [] 0
      = Except.ok ("Hello! How can I assist you today?",
          [⟨"greeting", "Hello! How can I assist you today?", none⟩]) ∧
    ∀ pre : String, "Hello! How can I assist you today?"
      ≠ pre ++ " Is there anything specific about the product you'd like to know?" := by
  refine ⟨rfl, ?_⟩
  intro pre h
  have hlen := congrArg String.length h
  rw [String.length_append] at hlen
  have h1 : ("Hello! How can I assist you today?" : String).length = 34 := rfl
  have h2 : (" Is there anything specific about the product you'd like to know?" : String).length
      = 65 := rfl
  rw [h1, h2] at hlen
  omega

/-- C6 (amended): when the context's `last_intent` is `product_info` and the
conversation history is non-empty, every successful `generate_response`
result ends with the appended clarifying prompt. -/
theorem claim_C6_amended (tmpl : Templates) (intent : String)
    (entities : EntitySet) (c : Context) (hist : List HistEntry) (rand : Nat)
    (r : String) (h' : List HistEntry)
    (hlast : c.last_intent = some "product_info") (hhist : hist ≠ [])
    (hok : ResponseGenerator.generate_response tmpl intent entities (some c)
      hist rand = Except.ok (r, h')) :
    ∃ pre, r
      = pre ++ " Is there anything specific about the product you'd like to know?" := by
  unfold ResponseGenerator.generate_response at hok
  cases htf : templatesFor tmpl intent with
  | error s =>
    rw [htf] at hok
    simp only [] at hok
    exact Except.noConfusion hok
  | ok templates =>
    rw [htf] at hok
    simp only [] at hok
    cases hrc : randomChoice templates rand with
    | error s =>
      rw [hrc] at hok
      simp only [] at hok
      exact Except.noConfusion hok
    | ok base =>
      rw [hrc] at hok
      simp only [] at hok
      have hctx : ctxTruthy (some c) = true := by
        simp [ctxTruthy, hlast]
      rw [hctx] at hok
      simp only [if_true] at hok
      have hpi : ("product_info" : String).isEmpty = false := rfl
      have hcond : (pyStrTruthy c.last_intent && decide (hist.length > 0)) = true := by
        rw [hlast]
        simp [pyStrTruthy, hpi, List.length_pos.2 hhist]
      unfold add_context_awareness at hok
      simp only [Option.getD_some] at hok
      rw [hcond] at hok
      simp [hlast] at hok
      obtain ⟨hr, -⟩ := hok
      exact ⟨_, hr.symm⟩

/-- Witness for C6 (amended) at a concrete call with one prior history entry:
the hypotheses hold and the returned greeting ends with the clarifying
prompt. -/
theorem claim_C6_amended_witness :
    ((⟨some "product_info", none⟩ : Context).last_intent = some "product_info") ∧
    ([(⟨"greeting", "x", none⟩ : HistEntry)] ≠ []) ∧
    ∃ pre, ("Hello! How can I assist you today? Is there anything specific about the product you'd like to know?" : String)
      = pre ++ " Is there anything specific about the product you'd like to know?" :=
  ⟨rfl, by simp,
   claim_C6_amended RESPONSE_TEMPLATES "greeting" [] ⟨some "product_info", none⟩
     [⟨"greeting", "x", none⟩] 0 _ _ rfl (by simp) rfl⟩

/-- C7 (counterexample): a configuration whose template catalog lacks the
`unknown` entry and whose keyword configuration is empty passes
`Config.validate` (which only checks the Google credentials), while every
`generate_response` call against that catalog raises `KeyError` — the error is
per-request, not at validation time. -/
theorem claim_C7_counterexample :
    Config.validate
        ⟨some "/creds.json", true, [("greeting", ["hi there"])], []⟩
      = Except.ok true ∧
    ResponseGenerator.generate_response [("greeting", ["hi there"])] "greeting"
        [] none [] 0
      = Except.error "KeyError: 'unknown'" :=
  ⟨rfl, rfl⟩

/-- C7 (amended): `Config.validate` never inspects the template catalog or the
keyword configuration (its result is unchanged by replacing them), and a
catalog missing the `unknown` entry makes every `generate_response` call fail
with `KeyError` at request time — even for intents present in the catalog,
because the lookup's default argument is evaluated eagerly. -/
theorem claim_C7_amended :
    (∀ (c : ConfigState) (tmpl : Templates) (kws : List (String × List String)),
      Config.validate c = Config.validate
        ⟨c.google_application_credentials, c.credentials_file_exists, tmpl, kws⟩) ∧
    (∀ (tmpl : Templates) (intent : String) (entities : EntitySet)
        (context : Option Context) (hist : List HistEntry) (rand : Nat),
      tmpl.lookup "unknown" = none →
      ResponseGenerator.generate_response tmpl intent entities context hist rand
        = Except.error "KeyError: 'unknown'") := by
  constructor
  · intro c tmpl kws
    rfl
  · intro tmpl intent entities context hist rand hmiss
    unfold ResponseGenerator.generate_response templatesFor
    rw [hmiss]

/-- Witness for C7 (amended): the catalog `[("greeting", [...])]` has no
`unknown` entry and a `greeting`-intent request against it fails with
`KeyError`; `validate` on a config carrying that catalog equals `validate`
with the catalog replaced by the shipped one. -/
theorem claim_C7_amended_witness :
    (([("greeting", ["hi there"])] : Templates).lookup "unknown" = none) ∧
    ResponseGenerator.generate_response [("greeting", ["hi there"])] "greeting"
        [] none [] 0 = Except.error "KeyError: 'unknown'" ∧
    Config.validate ⟨none, false, [("greeting", ["hi there"])], []⟩
      = Config.validate ⟨none, false, RESPONSE_TEMPLATES, INTENT_KEYWORDS⟩ :=
  ⟨rfl,
   claim_C7_amended.2 [("greeting", ["hi there"])] "greeting" [] none [] 0 rfl,
   claim_C7_amended.1 ⟨none, false, [("greeting", ["hi there"])], []⟩
     RESPONSE_TEMPLATES INTENT_KEYWORDS⟩

/-- Key update in a dict always makes a later lookup of that key return the
new value. -/
theorem dictSet_lookup (k v : String) :
    ∀ d : PyDict, (dictSet d k v).lookup k = some v := by
  intro d
  induction d with
  | nil => simp [dictSet, List.lookup]
  | cons p rest ih =>
    rw [dictSet]
    by_cases hpk : p.1 = k
    · rw [if_pos hpk]
      simp [List.lookup]
    · rw [if_neg hpk]
      rw [List.lookup]
      have hne : (k == p.1) = false := by
        simp only [beq_eq_false_iff_ne, ne_eq]
        exact fun h => hpk h.symm
      simp only [hne]
      exact ih

/-- C4 (counterexample): starting from a tracker whose context dict (at
reference 0) is empty, a caller that mutates the value returned by
`get_context` changes what the tracker itself subsequently reads through its
internal reference — the returned value is not a snapshot. -/
theorem claim_C4_counterexample :
    heapRead
        (heapWrite [([] : PyDict)] (get_context ⟨[([] : PyDict)], 0⟩)
          "last_intent" "hacked")
        (⟨[([] : PyDict)], 0⟩ : TrackerHeap).ctxRef "last_intent"
      = some "hacked" ∧
    heapRead [([] : PyDict)] (⟨[([] : PyDict)], 0⟩ : TrackerHeap).ctxRef
        "last_intent" = none :=
  ⟨rfl, rfl⟩

/-- C4 (amended): `get_context` returns the tracker's internal context
reference itself (`return self.context`, an alias rather than a copy), so for
every valid tracker state a caller's write through the returned value is
visible through the tracker's internal reference. -/
theorem claim_C4_amended (st : TrackerHeap) (k v : String)
    (h : st.ctxRef < st.store.length) :
    get_context st = st.ctxRef ∧
    heapRead (heapWrite st.store (get_context st) k v) st.ctxRef k = some v := by
  refine ⟨rfl, ?_⟩
  unfold heapWrite get_context
  rw [List.getElem?_eq_getElem h]
  unfold heapRead
  rw [List.getElem?_set_eq_of_lt _ (by simpa using h)]
  exact dictSet_lookup k v _

/-- Witness for C4 (amended) at a one-dict store. -/
theorem claim_C4_amended_witness :
    ((⟨[[("last_intent", "greeting")]], 0⟩ : TrackerHeap).ctxRef
        < (⟨[[("last_intent", "greeting")]], 0⟩ : TrackerHeap).store.length) ∧
    (get_context ⟨[[("last_intent", "greeting")]], 0⟩
        = (⟨[[("last_intent", "greeting")]], 0⟩ : TrackerHeap).ctxRef ∧
     heapRead
        (heapWrite [[("last_intent", "greeting")]]
          (get_context ⟨[[("last_intent", "greeting")]], 0⟩) "last_intent" "support")
        (⟨[[("last_intent", "greeting")]], 0⟩ : TrackerHeap).ctxRef "last_intent"
      = some "support") :=
  ⟨by decide,
   claim_C4_amended ⟨[[("last_intent", "greeting")]], 0⟩ "last_intent" "support"
     (by decide)⟩

/-- Decimal digits are regex word characters. -/
theorem digit_word (c : Char) (h : c.isDigit = true) : isWordChar c = true := by
  simp [isWordChar, Char.isAlphanum, h]

/-- Every position of the maximal digit run starting at `i` holds a digit. -/
theorem run_digit_get (t : List Char) (i k : Nat)
    (hk : k < ((t.drop i).takeWhile Char.isDigit).length) :
    ∃ c, t[i + k]? = some c ∧ c.isDigit = true := by
  obtain ⟨rest, hsplit⟩ := List.takeWhile_prefix (l := t.drop i) Char.isDigit
  have h1 : ((t.drop i).takeWhile Char.isDigit)[k]? = t[i + k]? := by
    conv_rhs => rw [← List.getElem?_drop, ← hsplit]
    rw [List.getElem?_append, if_pos hk]
  have h2 := List.getElem?_eq_getElem hk
  exact ⟨_, h1.symm.trans h2, List.mem_takeWhile_imp (List.getElem_mem hk)⟩

/-- `takeWhile` of an append where the left part all satisfies the predicate
and the right part starts with a failure (or is empty) is the left part. -/
theorem takeWhile_all_append {α : Type} (p : α → Bool) (l₁ l₂ : List α)
    (h₁ : ∀ a ∈ l₁, p a = true) (h₂ : ∀ b ∈ l₂.head?, p b = false) :
    (l₁ ++ l₂).takeWhile p = l₁ := by
  induction l₁ with
  | nil =>
    cases l₂ with
    | nil => rfl
    | cons b l₂' =>
      simp only [List.nil_append, List.takeWhile_cons, h₂ b rfl,
        Bool.false_eq_true, if_false]
  | cons a l₁' ih =>
    rw [List.cons_append, List.takeWhile_cons, if_pos (h₁ a (List.mem_cons_self a l₁'))]
    rw [ih (fun x hx => h₁ x (List.mem_cons_of_mem a hx))]

/-- Unfolding of a successful `numberMatchEnd`. -/
theorem numberMatchEnd_some (t : List Char) (i e : Nat)
    (hm : numberMatchEnd t i = some e) :
    boundaryAt t i = true ∧
    ((t.drop i).takeWhile Char.isDigit).length ≠ 0 ∧
    boundaryAt t (i + ((t.drop i).takeWhile Char.isDigit).length) = true ∧
    e = i + ((t.drop i).takeWhile Char.isDigit).length := by
  unfold numberMatchEnd at hm
  by_cases hb : boundaryAt t i = true
  · rw [if_pos hb] at hm
    simp only [] at hm
    by_cases hn : ((t.drop i).takeWhile Char.isDigit).length = 0
    · rw [if_pos hn] at hm
      exact Option.noConfusion hm
    · rw [if_neg hn] at hm
      by_cases hb2 : boundaryAt t (i + ((t.drop i).takeWhile Char.isDigit).length) = true
      · rw [if_pos hb2] at hm
        exact ⟨hb, hn, hb2, (Option.some.inj hm).symm⟩
      · rw [if_neg hb2] at hm
        exact Option.noConfusion hm
  · rw [if_neg hb] at hm
    exact Option.noConfusion hm

/-- A successful number match starts before its end and ends within the text. -/
theorem numberMatchEnd_bounds (t : List Char) (i e : Nat)
    (hm : numberMatchEnd t i = some e) : i < e ∧ e ≤ t.length := by
  obtain ⟨-, hn, -, he⟩ := numberMatchEnd_some t i e hm
  have hle : ((t.drop i).takeWhile Char.isDigit).length ≤ (t.drop i).length :=
    (List.takeWhile_prefix Char.isDigit).length_le
  have hdl : (t.drop i).length = t.length - i := List.length_drop i t
  have hipos : i < t.length := by
    by_contra hc
    have : (t.drop i).length = 0 := by omega
    omega
  omega

/-- No number match starts strictly inside another number match: such a
position is preceded by a digit, so `\b` fails there. -/
theorem numberMatchEnd_inside_none (t : List Char) (i e j : Nat)
    (hm : numberMatchEnd t i = some e) (hij : i < j) (hje : j < e) :
    numberMatchEnd t j = none := by
  obtain ⟨-, -, -, he⟩ := numberMatchEnd_some t i e hm
  have hprev : ∃ c, t[j - 1]? = some c ∧ c.isDigit = true := by
    have := run_digit_get t i (j - 1 - i) (by omega)
    have hidx : i + (j - 1 - i) = j - 1 := by omega
    rw [hidx] at this
    exact this
  have hcur : ∃ c, t[j]? = some c ∧ c.isDigit = true := by
    have := run_digit_get t i (j - i) (by omega)
    have hidx : i + (j - i) = j := by omega
    rw [hidx] at this
    exact this
  obtain ⟨c1, hc1, hd1⟩ := hprev
  obtain ⟨c2, hc2, hd2⟩ := hcur
  have hw1 : wordCharAt t (j - 1) = true := by
    unfold wordCharAt
    rw [hc1]
    exact digit_word c1 hd1
  have hw2 : wordCharAt t j = true := by
    unfold wordCharAt
    rw [hc2]
    exact digit_word c2 hd2
  have hb : boundaryAt t j = false := by
    unfold boundaryAt
    rw [if_neg (by omega : ¬ j = 0), hw1, hw2]
    rfl
  unfold numberMatchEnd
  rw [hb]
  simp

/-- The left-to-right non-overlapping scan for `\b\d+\b` emits exactly the
matches found at each start position: since no match starts strictly inside
another, skipping to a match end loses nothing. -/
theorem findallAux_number_eq_filterMap (t : List Char) :
    ∀ fuel i, t.length - i < fuel →
      findallAux numberMatchEnd t fuel i
        = (List.range' i (t.length - i)).filterMap (fun j =>
            (numberMatchEnd t j).map (fun e => String.mk ((t.drop j).take (e - j)))) := by
  intro fuel
  induction fuel with
  | zero => intro i hi; omega
  | succ n ih =>
    intro i hi
    rw [findallAux]
    by_cases hlt : i < t.length
    · rw [if_pos hlt]
      have hrange : t.length - i = (t.length - i - 1) + 1 := by omega
      rw [hrange, List.range'_succ]
      cases hm : numberMatchEnd t i with
      | none =>
        simp only []
        rw [List.filterMap_cons_none (by rw [hm]; rfl)]
        have harg : t.length - i - 1 = t.length - (i + 1) := by omega
        rw [harg]
        exact ih (i + 1) (by omega)
      | some e =>
        obtain ⟨hie, hel⟩ := numberMatchEnd_bounds t i e hm
        simp only []
        rw [if_pos hie]
        rw [List.filterMap_cons_some (by rw [hm]; rfl)]
        congr 1
        have hsplit : List.range' (i + 1) (t.length - i - 1)
            = List.range' (i + 1) (e - i - 1) ++ List.range' e (t.length - e) := by
          have := List.range'_append (i + 1) (e - i - 1) (t.length - e) 1
          rw [show i + 1 + 1 * (e - i - 1) = e by omega] at this
          rw [show t.length - e + (e - i - 1) = t.length - i - 1 by omega] at this
          exact this.symm
        rw [hsplit, List.filterMap_append]
        have hnone : (List.range' (i + 1) (e - i - 1)).filterMap (fun j =>
            (numberMatchEnd t j).map (fun e => String.mk ((t.drop j).take (e - j)))) = [] := by
          rw [List.filterMap_eq_nil_iff]
          intro j hj
          rw [List.mem_range'_1] at hj
          rw [numberMatchEnd_inside_none t i e j hm (by omega) (by omega)]
          rfl
        rw [hnone, List.nil_append]
        exact ih e (by omega)
    · rw [if_neg hlt]
      have h0 : t.length - i = 0 := by omega
      rw [h0]
      rfl

/-- C5 scan form: `findall_numbers` lists, in position order, one entry per
match position of `\b\d+\b`. -/
theorem findall_numbers_eq (t : List Char) :
    findall_numbers t
      = (List.range t.length).filterMap (fun j =>
          (numberMatchEnd t j).map (fun e => String.mk ((t.drop j).take (e - j)))) := by
  rw [findall_numbers, List.range_eq_range']
  have := findallAux_number_eq_filterMap t (t.length + 1) 0 (by omega)
  rw [Nat.sub_zero] at this
  exact this

/-- Regex word characters are the only characters that can end a digit run's
neighbourhood: a non-word character is in particular not a digit. -/
theorem not_word_not_digit (c : Char) (h : isWordChar c = false) :
    c.isDigit = false := by
  cases hd : c.isDigit with
  | false => rfl
  | true => rw [digit_word c hd] at h; exact Bool.noConfusion h

/-- Characterization of a `\b\d+\b` match at position `i`: the text splits as
`pre ++ run ++ post` where `run` is a non-empty all-digit slice starting at
`i = pre.length`, `pre` does not end with a word character, and `post` does
not start with one. -/
theorem numberMatchEnd_spec (t : List Char) (i e : Nat) :
    numberMatchEnd t i = some e ↔
      ∃ pre run post, t = pre ++ run ++ post ∧ pre.length = i ∧
        e = i + run.length ∧ run ≠ [] ∧ (∀ c ∈ run, c.isDigit = true) ∧
        (∀ c ∈ pre.getLast?, isWordChar c = false) ∧
        (∀ c ∈ post.head?, isWordChar c = false) := by
  constructor
  · intro hm
    obtain ⟨hb, hn, hb2, he⟩ := numberMatchEnd_some t i e hm
    obtain ⟨rest, hsplit⟩ := List.takeWhile_prefix (l := t.drop i) Char.isDigit
    have hil : i < t.length := by
      by_contra hc
      have hdrop : t.drop i = [] := List.drop_eq_nil_of_le (by omega)
      rw [hdrop] at hn
      simp at hn
    refine ⟨t.take i, (t.drop i).takeWhile Char.isDigit, rest, ?_, ?_, he, ?_, ?_, ?_, ?_⟩
    · rw [List.append_assoc, hsplit, List.take_append_drop]
    · rw [List.length_take]; omega
    · intro hrn
      rw [hrn] at hn
      simp at hn
    · exact fun c hc => List.mem_takeWhile_imp hc
    · intro c hc
      have hw : wordCharAt t i = true := by
        obtain ⟨c0, hc0, hd0⟩ := run_digit_get t i 0 (by omega)
        rw [Nat.add_zero] at hc0
        unfold wordCharAt
        rw [hc0]
        exact digit_word c0 hd0
      unfold boundaryAt at hb
      rw [hw] at hb
      by_cases hi0 : i = 0
      · rw [hi0] at hc
        simp at hc
      · rw [if_neg hi0] at hb
        have hwprev : wordCharAt t (i - 1) = false := by
          cases hx : wordCharAt t (i - 1) with
          | false => rfl
          | true => rw [hx] at hb; exact absurd hb (by decide)
        have hgl : (t.take i).getLast? = t[i - 1]? := by
          rw [List.getLast?_eq_getElem?, List.length_take]
          have hmin : min i t.length = i := by omega
          rw [hmin, List.getElem?_take, if_pos (by omega)]
        rw [hgl] at hc
        unfold wordCharAt at hwprev
        rw [hc] at hwprev
        exact hwprev
    · intro c hc
      have hwlast : wordCharAt t (i + ((t.drop i).takeWhile Char.isDigit).length - 1)
          = true := by
        obtain ⟨c0, hc0, hd0⟩ :=
          run_digit_get t i (((t.drop i).takeWhile Char.isDigit).length - 1) (by omega)
        have hidx : i + (((t.drop i).takeWhile Char.isDigit).length - 1)
            = i + ((t.drop i).takeWhile Char.isDigit).length - 1 := by omega
        rw [hidx] at hc0
        unfold wordCharAt
        rw [hc0]
        exact digit_word c0 hd0
      unfold boundaryAt at hb2
      rw [if_neg (by omega : ¬ i + ((t.drop i).takeWhile Char.isDigit).length = 0),
        hwlast] at hb2
      have hwnext : wordCharAt t (i + ((t.drop i).takeWhile Char.isDigit).length)
          = false := by
        cases hx : wordCharAt t (i + ((t.drop i).takeWhile Char.isDigit).length) with
        | false => rfl
        | true => rw [hx] at hb2; exact absurd hb2 (by decide)
      have hhead : rest[0]? = t[i + ((t.drop i).takeWhile Char.isDigit).length]? := by
        have h1 : (((t.drop i).takeWhile Char.isDigit) ++ rest)[((t.drop i).takeWhile Char.isDigit).length]?
            = rest[0]? := by
          rw [List.getElem?_append, if_neg (by omega), Nat.sub_self]
        rw [← h1, hsplit, List.getElem?_drop]
      rw [List.head?_eq_getElem?, hhead] at hc
      unfold wordCharAt at hwnext
      rw [hc] at hwnext
      exact hwnext
  · rintro ⟨pre, run, post, ht, hlen, he, hne, hdig, hpre, hpost⟩
    have hrunpos : 0 < run.length := List.length_pos.2 hne
    have hdrop : t.drop i = run ++ post := by
      rw [ht, List.append_assoc, ← hlen, List.drop_left]
    have htake : (t.drop i).takeWhile Char.isDigit = run := by
      rw [hdrop]
      exact takeWhile_all_append _ _ _ hdig
        (fun b hb => not_word_not_digit b (hpost b hb))
    have hw : wordCharAt t i = true := by
      have h0 : t[i]? = (run ++ post)[0]? := by
        rw [← hdrop, List.getElem?_drop, Nat.add_zero]
      cases run with
      | nil => exact absurd rfl hne
      | cons r0 rs =>
        unfold wordCharAt
        rw [h0]
        simp only [List.cons_append, List.getElem?_cons_zero]
        exact digit_word r0 (hdig r0 (List.mem_cons_self r0 rs))
    have hbnd : boundaryAt t i = true := by
      unfold boundaryAt
      rw [hw]
      by_cases hi0 : i = 0
      · rw [if_pos hi0]
        rfl
      · rw [if_neg hi0]
        have hprene : pre ≠ [] := by
          intro hp
          rw [hp] at hlen
          simp at hlen
          omega
        obtain ⟨c, hcl⟩ := Option.isSome_iff_exists.1
          (List.getLast?_isSome.2 hprene)
        have hplen : i - 1 < pre.length := by omega
        have hip : t[i - 1]? = pre[i - 1]? := by
          rw [ht, List.append_assoc, List.getElem?_append, if_pos (by omega)]
        have hgl : pre[i - 1]? = some c := by
          rw [← hcl, List.getLast?_eq_getElem?, hlen]
        have hwp : wordCharAt t (i - 1) = false := by
          unfold wordCharAt
          rw [hip, hgl]
          exact hpre c hcl
        rw [hwp]
        rfl
    have hwl : wordCharAt t (i + run.length - 1) = true := by
      have h1 : t[i + run.length - 1]? = run[run.length - 1]? := by
        have h2 : t[i + (run.length - 1)]? = (run ++ post)[run.length - 1]? := by
          rw [← hdrop, List.getElem?_drop]
        rw [show i + run.length - 1 = i + (run.length - 1) by omega, h2,
          List.getElem?_append, if_pos (by omega)]
      have h3 : run[run.length - 1]? = some run[run.length - 1] :=
        List.getElem?_eq_getElem (by omega)
      unfold wordCharAt
      rw [h1, h3]
      exact digit_word _ (hdig _ (List.getElem_mem (by omega)))
    have hwn : wordCharAt t (i + run.length) = false := by
      have h1 : t[i + run.length]? = post[0]? := by
        have h2 : t[i + run.length]? = (run ++ post)[run.length]? := by
          rw [← hdrop, List.getElem?_drop]
        rw [h2, List.getElem?_append, if_neg (by omega), Nat.sub_self]
      unfold wordCharAt
      rw [h1]
      cases hph : post[0]? with
      | none => rfl
      | some c =>
        exact hpost c (by rw [List.head?_eq_getElem?, hph]; rfl)
    have hbnd2 : boundaryAt t (i + run.length) = true := by
      unfold boundaryAt
      rw [if_neg (by omega : ¬ i + run.length = 0),
        show i + run.length - 1 = i + run.length - 1 from rfl, hwl, hwn]
      rfl
    unfold numberMatchEnd
    rw [hbnd]
    simp only [if_true, htake]
    rw [if_neg (by omega : ¬ run.length = 0), if_pos hbnd2, he]

/-- C5 (counterexample): on `"abc123"` the claim's reading — maximal digit
runs bounded by NON-DIGIT boundaries — demands `numbers = ["123"]`, but the
code's `\b\d+\b` requires word boundaries, finds nothing (the `c` before `1`
is a word character), and the `numbers` key is dropped entirely. -/
theorem claim_C5_counterexample :
    claimNumbers "abc123".data = ["123"] ∧
    (extract_entities "abc123".data).lookup "numbers" = none ∧
    extract_entities "abc123".data = [] :=
  ⟨rfl, rfl, rfl⟩

/-- C5 (amended): `numbers` lists, in order of occurrence, exactly the maximal
runs of decimal digits bounded by word boundaries — preceded and followed by a
non-alphanumeric, non-underscore character or a string edge; and extracting
from the worked example yields `numbers = ["12345"]`,
`emails = ["test@example.com"]` and no `dates` key. -/
theorem claim_C5_amended :
    (∀ t : List Char, findall_numbers t
        = (List.range t.length).filterMap (fun j =>
            (numberMatchEnd t j).map (fun e => String.mk ((t.drop j).take (e - j))))) ∧
    (∀ (t : List Char) (i e : Nat), numberMatchEnd t i = some e ↔
      ∃ pre run post, t = pre ++ run ++ post ∧ pre.length = i ∧
        e = i + run.length ∧ run ≠ [] ∧ (∀ c ∈ run, c.isDigit = true) ∧
        (∀ c ∈ pre.getLast?, isWordChar c = false) ∧
        (∀ c ∈ post.head?, isWordChar c = false)) ∧
    extract_entities "My order number is 12345 and email is test@example.com".data
      = [("numbers", ["12345"]), ("emails", ["test@example.com"])] :=
  ⟨findall_numbers_eq, numberMatchEnd_spec, rfl⟩

end VoiceBot
